import Mathlib

/-!
# Verification of the `idream-erp` application configuration loader

Shallow embedding of `helpers/loader/appconfig_loader.go`: the version
parser `parseVersion`, the initializer `loadConfig`, and the lazy
singleton accessor `AppConfig`, together with proofs of the spec's
claims about them.

Strings are modelled as Lean `String` / `List Char`; Go `uint64` values
are modelled as `Nat` together with the explicit saturation at
`2 ^ 64 - 1` performed by `strconv.ParseUint` on range errors.
-/

namespace IdreamErp

/-! ## Data model (from `appconfig_loader.go`) -/

/-- Go struct `appVersion`: the parsed `<major>.<minor>.<build>-<release>`
components. `Major`, `Minor`, `Build` are `uint64` in the source,
modelled as `Nat` (every value produced here is `< 2 ^ 64`). -/
structure appVersion where
  Major : Nat
  Minor : Nat
  Build : Nat
  Release : String
  deriving DecidableEq, Repr

/-- Go struct `mysqlConfig`: the database-dialect tuning block. -/
structure mysqlConfig where
  DefaultStringSize : Nat
  DisableDateTimePrecision : Bool
  DontSupportRenameIndex : Bool
  DontSupportRenameColumn : Bool
  SkipInitVersion : Bool
  deriving DecidableEq, Repr

/-- Opaque stand-in for the external `gorm.Config` driver settings
block; the loader never inspects it, so it carries no data here. -/
inductive GormConfig
  | mk
  deriving DecidableEq, Repr

/-- Go struct `AppConfigType`: the Configuration Record. Go pointer
fields (`*appVersion`, `*mysqlConfig`, `*gorm.Config`) are modelled as
`Option` (with `none` for `nil`). -/
structure AppConfigType where
  Version : String
  VersionInfo : Option appVersion
  FbSdkVersion : String
  FbClientId : String
  FbClientSecret : String
  FbRedirectUri : String
  ServerAddr : String
  Message : String
  Mysql_dsn : String
  MysqlConfig : Option mysqlConfig
  GormConfig : Option GormConfig
  deriving DecidableEq, Repr

/-! ## The version parser

The Go source compiles the pattern
`(?P<major>\d+?)[.](?P<minor>\d+?)[.](?P<build>\d+?)\-(?P<release>(alpha|beta|build|testing))`
and takes the leftmost match (`FindStringSubmatchIndex`).  Because `\d`
is disjoint from `.` and from the first letters of the release labels,
the lazy quantifiers behave exactly like greedy ones here: each numeric
capture is the maximal digit run starting at its position.  We embed
the matcher directly with that deterministic reading. -/

/-- The release-label alternation `(alpha|beta|build|testing)`, in the
order the regex alternation tries them. -/
def releaseLabels : List (List Char) :=
  ["alpha".data, "beta".data, "build".data, "testing".data]

/-- Matching the release alternation at the head of `s`: the first
label of the alternation that is a prefix of `s` (leftmost-first
alternation semantics of Go's `regexp`). -/
def matchRelease (s : List Char) : Option (List Char) :=
  releaseLabels.find? (fun l => l.isPrefixOf s)

/-- One `(?P<g>\d+?)<sep>` step of the pattern, anchored at the head of
`l`: a non-empty digit run followed by the separator character.  The
lazy `\d+?` coincides with the greedy reading because a digit can match
neither `[.]` nor `\-`, so the capture is the maximal digit run.
Returns the capture and the rest after the separator. -/
def splitNum (sep : Char) (l : List Char) : Option (List Char × List Char) :=
  if (l.takeWhile Char.isDigit).isEmpty then none
  else if (l.dropWhile Char.isDigit).head? = some sep then
    some (l.takeWhile Char.isDigit, (l.dropWhile Char.isDigit).tail)
  else none

/-- Attempt the version pattern anchored at the head of `l`, returning
the four captures `(major, minor, build, release)` on success: three
digit-run/separator steps followed by the release alternation. -/
def matchVersionAt (l : List Char) : Option (List Char × List Char × List Char × List Char) :=
  (splitNum '.' l).bind fun p1 =>
  (splitNum '.' p1.2).bind fun p2 =>
  (splitNum '-' p2.2).bind fun p3 =>
  (matchRelease p3.2).map fun rel => (p1.1, p2.1, p3.1, rel)

/-- Leftmost match of the (unanchored) version pattern: try each start
position from the left, as Go's `FindStringSubmatchIndex` does. -/
def findVersionMatch : List Char → Option (List Char × List Char × List Char × List Char)
  | [] => none
  | c :: rest =>
    match matchVersionAt (c :: rest) with
    | some m => some m
    | none => findVersionMatch rest

/-- Numeric value of a digit string (most significant digit first). -/
def digitsToNat (s : List Char) : Nat :=
  s.foldl (fun a c => a * 10 + (c.toNat - '0'.toNat)) 0

/-- The largest `uint64`, `2 ^ 64 - 1`. -/
def UINT64MAX : Nat := 2 ^ 64 - 1

/-- Model of Go `strconv.ParseUint(s, 10, 64)` with the error
discarded, as the source does (`major, _ := strconv.ParseUint(...)`):
a syntax error (empty string or a non-digit) yields `0`; a range error
(value over `2 ^ 64 - 1`) yields the maximum `uint64`, per the
documented contract of `ParseUint`. -/
def parseUint64 (s : List Char) : Nat :=
  if s.isEmpty then 0
  else if s.all Char.isDigit then min (digitsToNat s) UINT64MAX
  else 0

/-- Go `parseVersion`: leftmost match of the version pattern, each
numeric capture fed through `ParseUint` (empty capture on no match,
hence `0`), release capture taken verbatim (empty on no match). -/
def parseVersion (v : String) : appVersion :=
  match findVersionMatch v.data with
  | some (maj, mnr, bld, rel) =>
    { Major := parseUint64 maj, Minor := parseUint64 mnr,
      Build := parseUint64 bld, Release := String.mk rel }
  | none => { Major := 0, Minor := 0, Build := 0, Release := "" }

/-! ## The config initializer and singleton accessor

`loadConfig` reads `config.DEFAULT`, unmarshals the JSON into a fresh
record (whose `GormConfig` field was pre-set to a default `gorm.Config`),
validates `FB_SDK_VERSION` against `^v\d{2,}[.]\d{1}$`, parses the
version string, and overlays six environment variables.  Any failure
prints a cause to stderr and calls `os.Exit(1)`.

The outside world (file system and environment) is a `World` value; the
combined outcome of `os.ReadFile` + `json.Unmarshal` is a `FileState`:
`decoded cfg` is the record state right after a successful unmarshal
into the fresh record. -/

/-- The anchored pattern `^v\d{2,}[.]\d{1}$` from `loadConfig`: a
lowercase `v`, at least two digits (the maximal digit run, since
`\d{2,}` is greedy and digits cannot match `[.]`), a literal dot,
exactly one digit, end of string. -/
def sdkverMatch (s : String) : Bool :=
  match s.data with
  | 'v' :: rest =>
    (decide (2 ≤ (rest.takeWhile Char.isDigit).length)) &&
      (match rest.dropWhile Char.isDigit with
       | ['.', d] => d.isDigit
       | _ => false)
  | _ => false

/-- Outcome of `os.ReadFile(config.DEFAULT)` followed by
`json.Unmarshal` into the fresh record: the read can fail with an I/O
error, the unmarshal can fail on malformed JSON, or the unmarshal
succeeds and leaves the record in state `cfg` (JSON-supplied fields
set, absent fields still at their zero values, `GormConfig` at its
pre-set default). -/
inductive FileState
  | unreadable (msg : String)
  | badJson (msg : String)
  | decoded (cfg : AppConfigType)
  deriving DecidableEq

/-- The process environment.  `none` models an unset variable; Go's
`os.Getenv` collapses it to `""`. -/
def Env : Type := String → Option String

/-- Go `os.Getenv`: the empty string when the variable is unset. -/
def getenv (e : Env) (k : String) : String := (e k).getD ""

/-- The outside world a single `loadConfig` invocation observes. -/
structure World where
  file : FileState
  env : Env

/-- Result of running `loadConfig`: either the process exited with the
given stderr text and exit code, or the populated record. -/
inductive LoadResult
  | exited (stderr : String) (code : Nat)
  | ok (cfg : AppConfigType)
  deriving DecidableEq

/-- Go `loadConfig`: read and unmarshal the config file (each failure
is fatal with its own diagnostic), validate `FB_SDK_VERSION` (fatal on
mismatch), then attach the parsed version and overlay the six
environment-derived fields onto the record. -/
def loadConfig (w : World) : LoadResult :=
  match w.file with
  | .unreadable msg => .exited ("error loading app_config.json: " ++ msg) 1
  | .badJson msg => .exited ("error unmarshaling app_config.json: " ++ msg) 1
  | .decoded cfg =>
    let fbSdkVer := getenv w.env "FB_SDK_VERSION"
    let fbClientId := getenv w.env "FB_CLIENT_ID"
    let fbClientSecret := getenv w.env "FB_CLIENT_SECRET"
    let fbRedirectUri := getenv w.env "FB_REDIRECT_URI"
    if !sdkverMatch fbSdkVer then
      .exited "FB_SDK_VERSION did not satisfy the expected version regexp." 1
    else
      .ok { cfg with
        VersionInfo := some (parseVersion cfg.Version)
        FbClientId := fbClientId
        FbClientSecret := fbClientSecret
        FbSdkVersion := fbSdkVer
        FbRedirectUri := fbRedirectUri
        Mysql_dsn := getenv w.env "MYSQL_DSN"
        ServerAddr := getenv w.env "SERVER_ADDR" }

/-- Go `AppConfig`: the lazy singleton accessor.  The second component
is the package-level `loadedConfig` variable after the call (`none`
when the process exited, in which case no state survives). -/
def AppConfig (w : World) (loadedConfig : Option AppConfigType) :
    LoadResult × Option AppConfigType :=
  match loadedConfig with
  | some cfg => (.ok cfg, some cfg)
  | none =>
    match loadConfig w with
    | .ok cfg => (.ok cfg, some cfg)
    | .exited msg code => (.exited msg code, none)

/-- The states the package-level `loadedConfig` variable can be in:
initially `nil`, then whatever a sequence of `AppConfig` calls leaves
behind. -/
inductive ReachableState : Option AppConfigType → Prop
  | init : ReachableState none
  | step (w : World) (st : Option AppConfigType) :
      ReachableState st → ReachableState (AppConfig w st).2

/-! ## Occurrences of the version pattern

Spec-side description of what it means for
`<digits>.<digits>.<digits>-<label>` to occur at a position of a
string, stated independently of the matcher, and the correspondence
between the two. -/

/-- The characters of an occurrence with components `a`, `b`, `c`,
`rel`. -/
def occPattern (a b c rel : List Char) : List Char :=
  a ++ '.' :: (b ++ '.' :: (c ++ '-' :: rel))

/-- The version pattern occurs at position `i` of `s`, exhibiting the
components `a`, `b`, `c` (non-empty digit runs) and `rel` (one of the
four release labels). -/
def OccAt (s : List Char) (i : Nat) (a b c rel : List Char) : Prop :=
  a ≠ [] ∧ (∀ x ∈ a, x.isDigit = true) ∧
  b ≠ [] ∧ (∀ x ∈ b, x.isDigit = true) ∧
  c ≠ [] ∧ (∀ x ∈ c, x.isDigit = true) ∧
  rel ∈ releaseLabels ∧ occPattern a b c rel <+: s.drop i

instance (s : List Char) (i : Nat) (a b c rel : List Char) :
    Decidable (OccAt s i a b c rel) := by
  unfold OccAt
  infer_instance

/-! ## Concrete worlds (the mock fixture of the test suite) -/

/-- The record state after unmarshaling the mock
`tests/mocks/app_config.json` into the fresh record: the file supplies
`version` and `message`; every other field keeps its zero value, and
`GormConfig` keeps the default set before unmarshaling. -/
def mockDecoded : AppConfigType :=
  { Version := "1.0.0-testing", VersionInfo := none, FbSdkVersion := "",
    FbClientId := "", FbClientSecret := "", FbRedirectUri := "", ServerAddr := "",
    Message := "This message is coming from the mocks/app_config.json",
    Mysql_dsn := "", MysqlConfig := none, GormConfig := some GormConfig.mk }

/-- An environment with every variable unset. -/
def envUnset : Env := fun _ => none

/-- An environment with only `FB_SDK_VERSION` set, to `v`. -/
def envSdk (v : String) : Env :=
  fun k => if k = "FB_SDK_VERSION" then some v else none

/-- The world of the mock test: mock config file, valid
`FB_SDK_VERSION`. -/
def mockWorld : World := ⟨FileState.decoded mockDecoded, envSdk "v12.3"⟩

/-- The record `loadConfig mockWorld` produces. -/
def mockLoaded : AppConfigType :=
  { Version := "1.0.0-testing", VersionInfo := some ⟨1, 0, 0, "testing"⟩,
    FbSdkVersion := "v12.3", FbClientId := "", FbClientSecret := "",
    FbRedirectUri := "", ServerAddr := "",
    Message := "This message is coming from the mocks/app_config.json",
    Mysql_dsn := "", MysqlConfig := none, GormConfig := some GormConfig.mk }

/-- The mock record with file-supplied values for two of the
environment-overlaid fields, to exercise the unconditional overlay. -/
def mockDecodedCreds : AppConfigType :=
  { mockDecoded with FbClientId := "client-id-from-file", Mysql_dsn := "dsn-from-file" }

/-! ## Sanity checks on concrete inputs -/

example : parseVersion "2.5.10-testing" = ⟨2, 5, 10, "testing"⟩ := by decide
example : parseVersion "garbage" = ⟨0, 0, 0, ""⟩ := by decide
example : parseVersion "" = ⟨0, 0, 0, ""⟩ := by decide
example : parseVersion "1.2.3" = ⟨0, 0, 0, ""⟩ := by decide
example : parseVersion "x2.5.10-testingy" = ⟨2, 5, 10, "testing"⟩ := by decide
example : parseVersion "1.2.3.4-alpha" = ⟨2, 3, 4, "alpha"⟩ := by decide
example : sdkverMatch "v12.3" = true := by decide
example : sdkverMatch "v123.4" = true := by decide
example : sdkverMatch "12.3" = false := by decide
example : sdkverMatch "v1.3" = false := by decide
example : sdkverMatch "" = false := by decide
example : sdkverMatch "v12.34" = false := by decide
example : loadConfig mockWorld = .ok mockLoaded := by decide

/-! ## Lemmas about the matcher -/

theorem releaseLabels_eq :
    releaseLabels = [['a', 'l', 'p', 'h', 'a'], ['b', 'e', 't', 'a'],
      ['b', 'u', 'i', 'l', 'd'], ['t', 'e', 's', 't', 'i', 'n', 'g']] := rfl

theorem isPrefixOf_append_self (u t : List Char) : u.isPrefixOf (u ++ t) = true := by
  simp [List.isPrefixOf_iff_prefix]

theorem isPrefixOf_of_append {u v t : List Char} (h : v = u ++ t) :
    u.isPrefixOf v = true := by
  subst h
  exact isPrefixOf_append_self u t

theorem isPrefixOf_head_ne {x y : Char} (xs ys : List Char) (h : ¬ x = y) :
    (x :: xs).isPrefixOf (y :: ys) = false := by
  simp [List.isPrefixOf_cons₂, h]

theorem isPrefixOf_cons_same (x : Char) (xs ys : List Char) :
    (x :: xs).isPrefixOf (x :: ys) = xs.isPrefixOf ys := by
  simp [List.isPrefixOf_cons₂]

/-- A release label at the head of the rest of the input is matched
exactly: the four labels are pairwise non-prefixing, so the
leftmost-first alternation returns the label itself. -/
theorem matchRelease_append {rel : List Char} (t : List Char) (h : rel ∈ releaseLabels) :
    matchRelease (rel ++ t) = some rel := by
  rw [releaseLabels_eq] at h
  simp only [List.mem_cons, List.not_mem_nil, or_false] at h
  unfold matchRelease
  rw [releaseLabels_eq]
  rcases h with rfl | rfl | rfl | rfl
  · have h1 : (['a', 'l', 'p', 'h', 'a'] : List Char).isPrefixOf
        ('a' :: 'l' :: 'p' :: 'h' :: 'a' :: t) = true := isPrefixOf_of_append rfl
    simp [List.find?_cons, h1]
  · have h1 : (['a', 'l', 'p', 'h', 'a'] : List Char).isPrefixOf
        ('b' :: 'e' :: 't' :: 'a' :: t) = false := isPrefixOf_head_ne _ _ (by decide)
    have h2 : (['b', 'e', 't', 'a'] : List Char).isPrefixOf
        ('b' :: 'e' :: 't' :: 'a' :: t) = true := isPrefixOf_of_append rfl
    simp [List.find?_cons, h1, h2]
  · have h1 : (['a', 'l', 'p', 'h', 'a'] : List Char).isPrefixOf
        ('b' :: 'u' :: 'i' :: 'l' :: 'd' :: t) = false := isPrefixOf_head_ne _ _ (by decide)
    have h2 : (['b', 'e', 't', 'a'] : List Char).isPrefixOf
        ('b' :: 'u' :: 'i' :: 'l' :: 'd' :: t) = false := by
      rw [isPrefixOf_cons_same]
      exact isPrefixOf_head_ne _ _ (by decide)
    have h3 : (['b', 'u', 'i', 'l', 'd'] : List Char).isPrefixOf
        ('b' :: 'u' :: 'i' :: 'l' :: 'd' :: t) = true := isPrefixOf_of_append rfl
    simp [List.find?_cons, h1, h2, h3]
  · have h1 : (['a', 'l', 'p', 'h', 'a'] : List Char).isPrefixOf
        ('t' :: 'e' :: 's' :: 't' :: 'i' :: 'n' :: 'g' :: t) = false :=
      isPrefixOf_head_ne _ _ (by decide)
    have h2 : (['b', 'e', 't', 'a'] : List Char).isPrefixOf
        ('t' :: 'e' :: 's' :: 't' :: 'i' :: 'n' :: 'g' :: t) = false :=
      isPrefixOf_head_ne _ _ (by decide)
    have h3 : (['b', 'u', 'i', 'l', 'd'] : List Char).isPrefixOf
        ('t' :: 'e' :: 's' :: 't' :: 'i' :: 'n' :: 'g' :: t) = false :=
      isPrefixOf_head_ne _ _ (by decide)
    have h4 : (['t', 'e', 's', 't', 'i', 'n', 'g'] : List Char).isPrefixOf
        ('t' :: 'e' :: 's' :: 't' :: 'i' :: 'n' :: 'g' :: t) = true :=
      isPrefixOf_of_append rfl
    simp [List.find?_cons, h1, h2, h3, h4]

/-- Splitting a non-empty digit run followed by a non-digit separator. -/
theorem takeWhile_digits_sep (a : List Char) (d : Char) (r : List Char)
    (ha : ∀ x ∈ a, x.isDigit = true) (hd : d.isDigit = false) :
    (a ++ d :: r).takeWhile Char.isDigit = a ∧
      (a ++ d :: r).dropWhile Char.isDigit = d :: r := by
  constructor
  · rw [List.takeWhile_append_of_pos ha, List.takeWhile_cons_of_neg (by simp [hd])]
    simp
  · rw [List.dropWhile_append_of_pos ha, List.dropWhile_cons_of_neg (by simp [hd])]

/-- A digit run followed by its separator splits as expected. -/
theorem splitNum_append {a : List Char} (sep : Char) (r : List Char)
    (ha : ∀ x ∈ a, x.isDigit = true) (h0 : a ≠ []) (hsep : sep.isDigit = false) :
    splitNum sep (a ++ sep :: r) = some (a, r) := by
  obtain ⟨hta, hda⟩ := takeWhile_digits_sep a sep r ha hsep
  unfold splitNum
  rw [hta, hda, List.isEmpty_eq_false.mpr h0]
  simp

/-- What a successful `splitNum` tells us about its input. -/
theorem splitNum_eq_some {sep : Char} {l ds r : List Char}
    (h : splitNum sep l = some (ds, r)) :
    ds ≠ [] ∧ (∀ x ∈ ds, x.isDigit = true) ∧ l = ds ++ sep :: r := by
  unfold splitNum at h
  split at h
  · exact absurd h (by simp)
  next he =>
    split at h
    next hhead =>
      simp only [Option.some.injEq, Prod.mk.injEq] at h
      obtain ⟨h1, h2⟩ := h
      have hd : l.dropWhile Char.isDigit = sep :: r := by
        cases hdw : l.dropWhile Char.isDigit with
        | nil => rw [hdw] at hhead; exact absurd hhead (by simp)
        | cons d rest =>
          rw [hdw] at hhead h2
          simp only [List.head?_cons, Option.some.injEq] at hhead
          simp only [List.tail_cons] at h2
          rw [hhead, h2]
      refine ⟨h1 ▸ (by simpa using he), h1 ▸ fun x hx => List.mem_takeWhile_imp hx, ?_⟩
      have e := List.takeWhile_append_dropWhile Char.isDigit l
      rw [hd, h1] at e
      exact e.symm
    next => exact absurd h (by simp)

/-- If the pattern occurs at position `i` with components
`(a, b, c, rel)`, the matcher anchored at `i` succeeds and captures
exactly those components. -/
theorem matchVersionAt_of_occ {s : List Char} {i : Nat} {a b c rel : List Char}
    (h : OccAt s i a b c rel) : matchVersionAt (s.drop i) = some (a, b, c, rel) := by
  obtain ⟨ha0, ha, hb0, hb, hc0, hc, hrel, t, ht⟩ := h
  rw [← ht]
  unfold occPattern
  simp only [List.append_assoc, List.cons_append]
  unfold matchVersionAt
  rw [splitNum_append '.' _ ha ha0 (by decide)]
  simp only [Option.some_bind]
  rw [splitNum_append '.' _ hb hb0 (by decide)]
  simp only [Option.some_bind]
  rw [splitNum_append '-' _ hc hc0 (by decide)]
  simp only [Option.some_bind]
  rw [matchRelease_append t hrel]
  simp

theorem matchVersionAt_nil : matchVersionAt [] = none := rfl

/-- Conversely, a successful anchored match exhibits an occurrence with
exactly the captured components. -/
theorem occ_of_matchVersionAt {s : List Char} {i : Nat} {a b c rel : List Char}
    (h : matchVersionAt (s.drop i) = some (a, b, c, rel)) : OccAt s i a b c rel := by
  unfold OccAt
  generalize hl : s.drop i = l at h ⊢
  clear hl
  unfold matchVersionAt at h
  rw [Option.bind_eq_some] at h
  obtain ⟨⟨a1, r1⟩, h1, h⟩ := h
  rw [Option.bind_eq_some] at h
  obtain ⟨⟨b1, r2⟩, h2, h⟩ := h
  rw [Option.bind_eq_some] at h
  obtain ⟨⟨c1, r3⟩, h3, h⟩ := h
  rw [Option.map_eq_some'] at h
  obtain ⟨rel1, hrel1, heq⟩ := h
  simp only [Prod.mk.injEq] at heq
  obtain ⟨rfl, rfl, rfl, rfl⟩ := heq
  dsimp only at h2 h3 hrel1
  obtain ⟨ha0, ha, hla⟩ := splitNum_eq_some h1
  obtain ⟨hb0, hb, hlb⟩ := splitNum_eq_some h2
  obtain ⟨hc0, hc, hlc⟩ := splitNum_eq_some h3
  unfold matchRelease at hrel1
  have hp := List.find?_some hrel1
  simp only [List.isPrefixOf_iff_prefix] at hp
  obtain ⟨t, ht⟩ := hp
  refine ⟨ha0, ha, hb0, hb, hc0, hc, List.mem_of_find?_eq_some hrel1, t, ?_⟩
  unfold occPattern
  simp only [List.append_assoc, List.cons_append]
  rw [ht, ← hlc, ← hlb, ← hla]

/-- `findVersionMatch` tries start positions from the left: if every
position before `i` fails and `i` matches, the match at `i` is the
result. -/
theorem findVersionMatch_of_first {m : List Char × List Char × List Char × List Char} :
    ∀ (i : Nat) (s : List Char),
      (∀ j, j < i → matchVersionAt (s.drop j) = none) →
      matchVersionAt (s.drop i) = some m → findVersionMatch s = some m := by
  intro i
  induction i with
  | zero =>
    intro s _ hm
    cases s with
    | nil => rw [List.drop_nil, matchVersionAt_nil] at hm; exact absurd hm (by simp)
    | cons c rest =>
      rw [List.drop_zero] at hm
      unfold findVersionMatch
      rw [hm]
  | succ i ih =>
    intro s hnone hm
    cases s with
    | nil => rw [List.drop_nil, matchVersionAt_nil] at hm; exact absurd hm (by simp)
    | cons c rest =>
      have h0 : matchVersionAt (c :: rest) = none := by
        have := hnone 0 (Nat.succ_pos i)
        rwa [List.drop_zero] at this
      unfold findVersionMatch
      rw [h0]
      refine ih rest (fun j hj => ?_) (by rwa [List.drop_succ_cons] at hm)
      have := hnone (j + 1) (Nat.succ_lt_succ hj)
      rwa [List.drop_succ_cons] at this

/-- If the search fails, every start position fails. -/
theorem matchVersionAt_of_findVersionMatch_none {s : List Char}
    (h : findVersionMatch s = none) : ∀ i, matchVersionAt (s.drop i) = none := by
  induction s with
  | nil => intro i; rw [List.drop_nil]; exact matchVersionAt_nil
  | cons c rest ih =>
    intro i
    unfold findVersionMatch at h
    cases hM : matchVersionAt (c :: rest) with
    | some m => rw [hM] at h; exact absurd h (by simp)
    | none =>
      rw [hM] at h
      cases i with
      | zero => rw [List.drop_zero]; exact hM
      | succ i => rw [List.drop_succ_cons]; exact ih h i

/-- If every start position fails, the search fails. -/
theorem findVersionMatch_eq_none {s : List Char}
    (h : ∀ i, matchVersionAt (s.drop i) = none) : findVersionMatch s = none := by
  induction s with
  | nil => rfl
  | cons c rest ih =>
    unfold findVersionMatch
    rw [show matchVersionAt (c :: rest) = none from by simpa using h 0]
    refine ih fun i => ?_
    simpa [List.drop_succ_cons] using h (i + 1)

/-- Main characterisation: on a string whose leftmost occurrence of the
version pattern is at `i` with components `(a, b, c, rel)`,
`parseVersion` feeds exactly those components through `ParseUint` and
returns the label verbatim. -/
theorem parseVersion_leftmost {s : List Char} {i : Nat} {a b c rel : List Char}
    (hocc : OccAt s i a b c rel)
    (hfirst : ∀ j, j < i → ∀ a1 b1 c1 r1, ¬ OccAt s j a1 b1 c1 r1) :
    parseVersion (String.mk s) =
      ⟨parseUint64 a, parseUint64 b, parseUint64 c, String.mk rel⟩ := by
  have hnone : ∀ j, j < i → matchVersionAt (s.drop j) = none := by
    intro j hj
    cases hM : matchVersionAt (s.drop j) with
    | none => rfl
    | some m =>
      obtain ⟨a1, b1, c1, r1⟩ := m
      exact absurd (occ_of_matchVersionAt hM) (hfirst j hj a1 b1 c1 r1)
  have hfind : findVersionMatch s = some (a, b, c, rel) :=
    findVersionMatch_of_first i s hnone (matchVersionAt_of_occ hocc)
  unfold parseVersion
  rw [show (String.mk s).data = s from rfl, hfind]

/-- If the pattern occurs nowhere in `s`, `parseVersion` returns the
all-zero, empty-release record. -/
theorem parseVersion_no_occ {s : List Char}
    (h : ∀ i a b c rel, ¬ OccAt s i a b c rel) :
    parseVersion (String.mk s) = ⟨0, 0, 0, ""⟩ := by
  have hnone : ∀ i, matchVersionAt (s.drop i) = none := by
    intro i
    cases hM : matchVersionAt (s.drop i) with
    | none => rfl
    | some m =>
      obtain ⟨a1, b1, c1, r1⟩ := m
      exact absurd (occ_of_matchVersionAt hM) (h i a1 b1 c1 r1)
  unfold parseVersion
  rw [show (String.mk s).data = s from rfl, findVersionMatch_eq_none hnone]

/-- No occurrence starts at a position where the anchored matcher
fails. -/
theorem no_occ_of_matchVersionAt_none {s : List Char} {j : Nat}
    (h : matchVersionAt (s.drop j) = none) :
    ∀ a b c rel, ¬ OccAt s j a b c rel := by
  intro a b c rel hocc
  rw [matchVersionAt_of_occ hocc] at h
  exact Option.noConfusion h

/-- A failed search means the pattern occurs nowhere. -/
theorem no_occ_of_findVersionMatch_none {s : List Char}
    (h : findVersionMatch s = none) :
    ∀ i a b c rel, ¬ OccAt s i a b c rel := by
  intro i
  exact no_occ_of_matchVersionAt_none (matchVersionAt_of_findVersionMatch_none h i)

/-- `ParseUint` on an in-range digit run is exact. -/
theorem parseUint64_of_digits {a : List Char} (h0 : a ≠ [])
    (ha : ∀ x ∈ a, x.isDigit = true) (hle : digitsToNat a ≤ UINT64MAX) :
    parseUint64 a = digitsToNat a := by
  unfold parseUint64
  rw [if_neg (by simpa using h0), if_pos (List.all_eq_true.mpr ha), Nat.min_eq_left hle]

/-- `ParseUint` on an out-of-range digit run saturates at the maximum
`uint64` (a range error returns the maximum magnitude value, and the
source discards the error). -/
theorem parseUint64_of_overflow {a : List Char} (h0 : a ≠ [])
    (ha : ∀ x ∈ a, x.isDigit = true) (hge : UINT64MAX ≤ digitsToNat a) :
    parseUint64 a = UINT64MAX := by
  unfold parseUint64
  rw [if_neg (by simpa using h0), if_pos (List.all_eq_true.mpr ha), Nat.min_eq_right hge]

/-! ## Claims about the version parser -/

/-- C1 (amended).  For every version string that is exactly
`<major>.<minor>.<build>-<release>` — `a`, `b`, `c` non-empty digit
sequences, `rel` one of `alpha`, `beta`, `build`, `testing` — and whose
numeric components each fit in an unsigned 64-bit integer,
`parseVersion` returns exactly the numeric values of the three digit
sequences and the matched label.  (The in-range hypotheses are the
amendment: a component at or above `2 ^ 64` saturates instead, see the
counterexample and C9.) -/
theorem C1_parseVersion_exact (a b c rel : List Char)
    (ha0 : a ≠ []) (ha : ∀ x ∈ a, x.isDigit = true)
    (hb0 : b ≠ []) (hb : ∀ x ∈ b, x.isDigit = true)
    (hc0 : c ≠ []) (hc : ∀ x ∈ c, x.isDigit = true)
    (hrel : rel ∈ releaseLabels)
    (hA : digitsToNat a ≤ UINT64MAX) (hB : digitsToNat b ≤ UINT64MAX)
    (hC : digitsToNat c ≤ UINT64MAX) :
    parseVersion (String.mk (occPattern a b c rel)) =
      ⟨digitsToNat a, digitsToNat b, digitsToNat c, String.mk rel⟩ := by
  have hocc : OccAt (occPattern a b c rel) 0 a b c rel :=
    ⟨ha0, ha, hb0, hb, hc0, hc, hrel, [], by simp⟩
  rw [parseVersion_leftmost hocc (fun j hj _ _ _ _ => absurd hj (Nat.not_lt_zero j)),
    parseUint64_of_digits ha0 ha hA, parseUint64_of_digits hb0 hb hB,
    parseUint64_of_digits hc0 hc hC]

theorem C1_parseVersion_exact_witness :
    parseVersion "2.5.10-testing" = ⟨2, 5, 10, "testing"⟩ := by
  have h := C1_parseVersion_exact ['2'] ['5'] ['1', '0'] "testing".data
    (by decide) (by decide) (by decide) (by decide) (by decide) (by decide)
    (by decide) (by decide) (by decide) (by decide)
  rw [show String.mk (occPattern ['2'] ['5'] ['1', '0'] "testing".data) =
    "2.5.10-testing" from rfl] at h
  rw [h]
  decide

/-- C1 counterexample.  The claim as stated fails when a digit sequence
exceeds the unsigned 64-bit range: on
`"18446744073709551616.0.0-alpha"` (major = `2 ^ 64`) the returned
`Major` is `2 ^ 64 - 1`, not the numeric value of the digit
sequence. -/
theorem C1_counterexample :
    (parseVersion "18446744073709551616.0.0-alpha").Major = 18446744073709551615 ∧
      digitsToNat "18446744073709551616".data = 18446744073709551616 ∧
      (18446744073709551615 : Nat) ≠ 18446744073709551616 := by
  refine ⟨by decide, by decide, by decide⟩

/-- C4.  `parseVersion` is a total function (it can neither fail nor
panic), and on any string in which the pattern
`<digits>.<digits>.<digits>-<label>` does not occur — including the
empty string — it returns the all-zero record with empty release. -/
theorem C4_parseVersion_total_no_match (s : List Char)
    (h : ∀ i a b c rel, ¬ OccAt s i a b c rel) :
    parseVersion (String.mk s) = ⟨0, 0, 0, ""⟩ :=
  parseVersion_no_occ h

theorem C4_parseVersion_total_no_match_witness :
    parseVersion "garbage" = ⟨0, 0, 0, ""⟩ ∧ parseVersion "" = ⟨0, 0, 0, ""⟩ ∧
      parseVersion "1.2.3" = ⟨0, 0, 0, ""⟩ :=
  ⟨C4_parseVersion_total_no_match "garbage".data
      (no_occ_of_findVersionMatch_none (by decide)),
    C4_parseVersion_total_no_match "".data
      (no_occ_of_findVersionMatch_none (by decide)),
    C4_parseVersion_total_no_match "1.2.3".data
      (no_occ_of_findVersionMatch_none (by decide))⟩

/-- C9 (amended).  When the version pattern matches, whichever of the
three numeric components has a digit sequence exceeding `2 ^ 64 - 1` is
coerced to `2 ^ 64 - 1` (the maximum `uint64`, which
`strconv.ParseUint` returns on a range error together with the
discarded error) — not to `0` as the claim stated — while every
component is still extracted from its own digit sequence and the
release label is returned verbatim. -/
theorem C9_parseVersion_overflow_saturates (s : List Char) (i : Nat)
    (a b c rel : List Char) (hocc : OccAt s i a b c rel)
    (hleft : ∀ j, j < i → ∀ a1 b1 c1 r1, ¬ OccAt s j a1 b1 c1 r1) :
    ((UINT64MAX < digitsToNat a → (parseVersion (String.mk s)).Major = UINT64MAX) ∧
      (UINT64MAX < digitsToNat b → (parseVersion (String.mk s)).Minor = UINT64MAX) ∧
      (UINT64MAX < digitsToNat c → (parseVersion (String.mk s)).Build = UINT64MAX)) ∧
    ((parseVersion (String.mk s)).Major = parseUint64 a ∧
      (parseVersion (String.mk s)).Minor = parseUint64 b ∧
      (parseVersion (String.mk s)).Build = parseUint64 c ∧
      (parseVersion (String.mk s)).Release = String.mk rel) := by
  have hpv := parseVersion_leftmost hocc hleft
  obtain ⟨ha0, ha, hb0, hb, hc0, hc, -, -⟩ := hocc
  rw [hpv]
  exact ⟨⟨fun h => parseUint64_of_overflow ha0 ha (Nat.le_of_lt h),
      fun h => parseUint64_of_overflow hb0 hb (Nat.le_of_lt h),
      fun h => parseUint64_of_overflow hc0 hc (Nat.le_of_lt h)⟩,
    rfl, rfl, rfl, rfl⟩

theorem C9_parseVersion_overflow_saturates_witness :
    (parseVersion "1.99999999999999999999.2-alpha").Minor = UINT64MAX ∧
      (parseVersion "1.99999999999999999999.2-alpha").Major = 1 ∧
      (parseVersion "1.99999999999999999999.2-alpha").Build = 2 ∧
      (parseVersion "1.99999999999999999999.2-alpha").Release = "alpha" := by
  have h := C9_parseVersion_overflow_saturates "1.99999999999999999999.2-alpha".data 0
    ['1'] "99999999999999999999".data ['2'] "alpha".data (by decide)
    (fun j hj => absurd hj (Nat.not_lt_zero j))
  rw [show String.mk "1.99999999999999999999.2-alpha".data =
    "1.99999999999999999999.2-alpha" from rfl] at h
  refine ⟨h.1.2.1 (by decide), h.2.1.trans (by decide), h.2.2.2.1.trans (by decide),
    h.2.2.2.2.trans (by decide)⟩

/-- C9 counterexample.  The claim predicted the overflowing component
parses to `0`; on `"99999999999999999999.1.2-alpha"` the major
component is in fact `2 ^ 64 - 1 ≠ 0` (minor, build and release are
still extracted). -/
theorem C9_counterexample :
    (parseVersion "99999999999999999999.1.2-alpha").Major ≠ 0 ∧
      (parseVersion "99999999999999999999.1.2-alpha").Major = 18446744073709551615 ∧
      (parseVersion "99999999999999999999.1.2-alpha").Minor = 1 ∧
      (parseVersion "99999999999999999999.1.2-alpha").Build = 2 ∧
      (parseVersion "99999999999999999999.1.2-alpha").Release = "alpha" := by
  refine ⟨by decide, by decide, by decide, by decide, by decide⟩

/-- C10.  The pattern is not anchored: whenever it occurs anywhere in
the input (with arbitrary surrounding characters), `parseVersion`
returns the components of the leftmost occurrence — not the
all-zero/empty record (the release, in particular, is a non-empty
label). -/
theorem C10_parseVersion_unanchored_leftmost (s : List Char) (i : Nat)
    (a b c rel : List Char) (hocc : OccAt s i a b c rel)
    (hleft : ∀ j, j < i → ∀ a1 b1 c1 r1, ¬ OccAt s j a1 b1 c1 r1) :
    parseVersion (String.mk s) =
      ⟨parseUint64 a, parseUint64 b, parseUint64 c, String.mk rel⟩ ∧
      String.mk rel ≠ "" := by
  refine ⟨parseVersion_leftmost hocc hleft, ?_⟩
  obtain ⟨-, -, -, -, -, -, hrel, -⟩ := hocc
  rw [releaseLabels_eq] at hrel
  simp only [List.mem_cons, List.not_mem_nil, or_false] at hrel
  rcases hrel with rfl | rfl | rfl | rfl <;> decide

theorem C10_parseVersion_unanchored_leftmost_witness :
    parseVersion "x2.5.10-testingy" = ⟨2, 5, 10, "testing"⟩ := by
  have hleft : ∀ j, j < 1 → ∀ a1 b1 c1 r1,
      ¬ OccAt "x2.5.10-testingy".data j a1 b1 c1 r1 := by
    intro j hj
    interval_cases j
    exact no_occ_of_matchVersionAt_none (by decide)
  have h := C10_parseVersion_unanchored_leftmost "x2.5.10-testingy".data 1
    ['2'] ['5'] ['1', '0'] "testing".data (by decide) hleft
  rw [show String.mk "x2.5.10-testingy".data = "x2.5.10-testingy" from rfl] at h
  rw [h.1]
  decide

/-! ## Claims about the initializer and singleton accessor -/

/-- C2.  When the config file itself reads and unmarshals fine, an
`FB_SDK_VERSION` that is unset, or whose value fails
`^v\d{2,}[.]\d{1}$`, makes the initializer write the diagnostic naming
`FB_SDK_VERSION` to stderr and exit with status `1` (non-zero).  The
unset and malformed cases are indistinguishable: `os.Getenv` yields
`""` for an unset variable, which also fails the anchored pattern, and
the resulting diagnostic and exit status are the same constants. -/
theorem C2_sdk_validation_fatal (w : World) (cfg : AppConfigType)
    (hfile : w.file = FileState.decoded cfg)
    (hbad : w.env "FB_SDK_VERSION" = none ∨
      sdkverMatch (getenv w.env "FB_SDK_VERSION") = false) :
    loadConfig w =
      .exited "FB_SDK_VERSION did not satisfy the expected version regexp." 1 := by
  have hb : sdkverMatch (getenv w.env "FB_SDK_VERSION") = false := by
    rcases hbad with h | h
    · unfold getenv
      rw [h]
      decide
    · exact h
  unfold loadConfig
  rw [hfile]
  simp [hb]

theorem C2_sdk_validation_fatal_witness :
    loadConfig ⟨FileState.decoded mockDecoded, envUnset⟩ =
      .exited "FB_SDK_VERSION did not satisfy the expected version regexp." 1 ∧
    loadConfig ⟨FileState.decoded mockDecoded, envSdk "12.3"⟩ =
      .exited "FB_SDK_VERSION did not satisfy the expected version regexp." 1 ∧
    loadConfig ⟨FileState.decoded mockDecoded, envSdk "v1.3"⟩ =
      .exited "FB_SDK_VERSION did not satisfy the expected version regexp." 1 :=
  ⟨C2_sdk_validation_fatal _ mockDecoded rfl (Or.inl rfl),
    C2_sdk_validation_fatal _ mockDecoded rfl (Or.inr (by decide)),
    C2_sdk_validation_fatal _ mockDecoded rfl (Or.inr (by decide))⟩

/-- C3.  Two consecutive calls to the accessor with no intervening
reset: the first call (from the empty state) performs the load; the
second call returns the cached record and its outcome is a constant in
the second world `w2` — the file and every environment variable may
change arbitrarily between the calls without affecting the returned
record, and `loadConfig` is not consulted again (the accessor returns
the cache directly). -/
theorem C3_singleton_cached (w w2 : World) (cfg : AppConfigType)
    (_hfirst : AppConfig w none = (.ok cfg, some cfg)) :
    AppConfig w2 (some cfg) = (.ok cfg, some cfg) := rfl

theorem C3_singleton_cached_witness :
    AppConfig ⟨FileState.unreadable "config deleted between calls", envUnset⟩
      (some mockLoaded) = (.ok mockLoaded, some mockLoaded) :=
  C3_singleton_cached mockWorld _ mockLoaded (by decide)

/-- C5.  The three fatal conditions are handled identically: each
writes its human-readable cause to stderr and exits with status `1`
(non-zero); `loadConfig` offers no retry or recovery path in any of
the three cases — every branch either returns the populated record or
terminates the process. -/
theorem C5_fatal_conditions_uniform (w : World) :
    (∀ msg, w.file = FileState.unreadable msg →
      loadConfig w = .exited ("error loading app_config.json: " ++ msg) 1) ∧
    (∀ msg, w.file = FileState.badJson msg →
      loadConfig w = .exited ("error unmarshaling app_config.json: " ++ msg) 1) ∧
    (∀ cfg, w.file = FileState.decoded cfg →
      sdkverMatch (getenv w.env "FB_SDK_VERSION") = false →
      loadConfig w =
        .exited "FB_SDK_VERSION did not satisfy the expected version regexp." 1) := by
  refine ⟨fun msg h => ?_, fun msg h => ?_, fun cfg h hb => ?_⟩
  · unfold loadConfig
    rw [h]
  · unfold loadConfig
    rw [h]
  · unfold loadConfig
    rw [h]
    simp [hb]

theorem C5_fatal_conditions_uniform_witness :
    loadConfig ⟨FileState.unreadable "open config: no such file", envUnset⟩ =
      .exited "error loading app_config.json: open config: no such file" 1 ∧
    loadConfig ⟨FileState.badJson "unexpected end of JSON input", envUnset⟩ =
      .exited "error unmarshaling app_config.json: unexpected end of JSON input" 1 ∧
    loadConfig ⟨FileState.decoded mockDecoded, envUnset⟩ =
      .exited "FB_SDK_VERSION did not satisfy the expected version regexp." 1 := by
  refine ⟨?_, ?_, ?_⟩
  · rw [(C5_fatal_conditions_uniform _).1 "open config: no such file" rfl]
    decide
  · rw [(C5_fatal_conditions_uniform _).2.1 "unexpected end of JSON input" rfl]
    decide
  · exact (C5_fatal_conditions_uniform _).2.2 mockDecoded rfl (by decide)

/-- Any record a successful `loadConfig` run produces is well-formed:
its SDK version passed the validation and its parsed version was
attached. -/
theorem loadConfig_ok_wellformed {w : World} {cfg : AppConfigType}
    (h : loadConfig w = .ok cfg) :
    sdkverMatch cfg.FbSdkVersion = true ∧ cfg.VersionInfo ≠ none := by
  unfold loadConfig at h
  cases hf : w.file with
  | unreadable msg => rw [hf] at h; exact absurd h (by simp)
  | badJson msg => rw [hf] at h; exact absurd h (by simp)
  | decoded j =>
    rw [hf] at h
    dsimp only at h
    cases hb : sdkverMatch (getenv w.env "FB_SDK_VERSION") with
    | false =>
      rw [hb] at h
      simp at h
    | true =>
      rw [hb] at h
      simp only [Bool.not_true, Bool.false_eq_true, if_false,
        LoadResult.ok.injEq] at h
      subst h
      exact ⟨by simpa using hb, by simp⟩

/-- Records reachable in the `loadedConfig` cache are well-formed. -/
theorem reachable_wellformed {st : Option AppConfigType} (h : ReachableState st) :
    ∀ cfg, st = some cfg →
      sdkverMatch cfg.FbSdkVersion = true ∧ cfg.VersionInfo ≠ none := by
  induction h with
  | init => intro cfg hc; exact absurd hc (by simp)
  | step w st hst ih =>
    intro cfg hc
    unfold AppConfig at hc
    cases st with
    | some c0 =>
      simp only [Option.some.injEq] at hc
      subst hc
      exact ih c0 rfl
    | none =>
      cases hl : loadConfig w with
      | exited m code => rw [hl] at hc; exact absurd hc (by simp)
      | ok c1 =>
        rw [hl] at hc
        simp only [Option.some.injEq] at hc
        subst hc
        exact loadConfig_ok_wellformed hl

/-- C6.  Whenever the accessor returns a record (rather than the
process having exited during initialization), starting from any
reachable cache state, the record is well-formed: its `FbSdkVersion`
matches `^v\d{2,}[.]\d{1}$` and its `VersionInfo` is a non-nil parsed
version.  No caller ever observes an error value: the only outcomes
are a well-formed record or process termination. -/
theorem C6_accessor_wellformed (w : World) (st : Option AppConfigType)
    (hreach : ReachableState st) (cfg : AppConfigType)
    (hok : (AppConfig w st).1 = .ok cfg) :
    sdkverMatch cfg.FbSdkVersion = true ∧ cfg.VersionInfo ≠ none := by
  unfold AppConfig at hok
  cases st with
  | some c0 =>
    simp only [LoadResult.ok.injEq] at hok
    subst hok
    exact reachable_wellformed hreach c0 rfl
  | none =>
    cases hl : loadConfig w with
    | exited m code => rw [hl] at hok; exact absurd hok (by simp)
    | ok c1 =>
      rw [hl] at hok
      simp only [LoadResult.ok.injEq] at hok
      subst hok
      exact loadConfig_ok_wellformed hl

theorem C6_accessor_wellformed_witness :
    sdkverMatch mockLoaded.FbSdkVersion = true ∧ mockLoaded.VersionInfo ≠ none :=
  C6_accessor_wellformed mockWorld none ReachableState.init mockLoaded (by decide)

/-- C7.  With the mock configuration file (version `"1.0.0-testing"`
and the literal mock message) and `FB_SDK_VERSION = "v12.3"`, the
accessor returns a record whose parsed release is `"testing"` and whose
message is the literal string from the mock file. -/
theorem C7_mock_config_accessor :
    ∃ cfg, AppConfig mockWorld none = (.ok cfg, some cfg) ∧
      cfg.VersionInfo.map appVersion.Release = some "testing" ∧
      cfg.Message = "This message is coming from the mocks/app_config.json" :=
  ⟨mockLoaded, by decide, by decide, by decide⟩

/-- C8.  After a successful load, each of the six environment-derived
fields equals the environment's value at initialization time
(`os.Getenv` semantics: `""` when unset); in particular an unset
variable leaves the field empty even if the JSON file had supplied a
value for it — the overlay overwrites file-derived values
unconditionally (there is no hypothesis on the decoded record `j`). -/
theorem C8_env_overlay (w : World) (j : AppConfigType)
    (hfile : w.file = FileState.decoded j) (cfg : AppConfigType)
    (hok : loadConfig w = .ok cfg) :
    (cfg.FbSdkVersion = getenv w.env "FB_SDK_VERSION" ∧
      cfg.FbClientId = getenv w.env "FB_CLIENT_ID" ∧
      cfg.FbClientSecret = getenv w.env "FB_CLIENT_SECRET" ∧
      cfg.FbRedirectUri = getenv w.env "FB_REDIRECT_URI" ∧
      cfg.Mysql_dsn = getenv w.env "MYSQL_DSN" ∧
      cfg.ServerAddr = getenv w.env "SERVER_ADDR") ∧
    ((w.env "FB_CLIENT_ID" = none → cfg.FbClientId = "") ∧
      (w.env "FB_CLIENT_SECRET" = none → cfg.FbClientSecret = "") ∧
      (w.env "FB_REDIRECT_URI" = none → cfg.FbRedirectUri = "") ∧
      (w.env "MYSQL_DSN" = none → cfg.Mysql_dsn = "") ∧
      (w.env "SERVER_ADDR" = none → cfg.ServerAddr = "")) := by
  unfold loadConfig at hok
  rw [hfile] at hok
  dsimp only at hok
  cases hb : sdkverMatch (getenv w.env "FB_SDK_VERSION") with
  | false =>
    rw [hb] at hok
    simp at hok
  | true =>
    rw [hb] at hok
    simp only [Bool.not_true, Bool.false_eq_true, if_false,
      LoadResult.ok.injEq] at hok
    subst hok
    refine ⟨⟨rfl, rfl, rfl, rfl, rfl, rfl⟩, ?_⟩
    refine ⟨fun h => ?_, fun h => ?_, fun h => ?_, fun h => ?_, fun h => ?_⟩ <;>
    · show getenv w.env _ = ""
      unfold getenv
      rw [h]
      rfl

theorem C8_env_overlay_witness :
    loadConfig ⟨FileState.decoded mockDecodedCreds, envSdk "v12.3"⟩ = .ok mockLoaded ∧
      mockLoaded.FbClientId = "" ∧ mockLoaded.Mysql_dsn = "" := by
  have h := C8_env_overlay ⟨FileState.decoded mockDecodedCreds, envSdk "v12.3"⟩
    mockDecodedCreds rfl mockLoaded (by decide)
  exact ⟨by decide, h.2.1 (by decide), h.2.2.2.2.1 (by decide)⟩

end IdreamErp
